import Mathlib

/-!
Verification of the RAG core of gramin-sahayak.

Shallow embedding of `src/rag/chunker.py`, `src/rag/vector_store.py`,
`src/rag/retriever.py`, `src/rag/prompt.py` and `src/rag/rag_pipeline.py`.
Text is `List Char` (Python strings index by code point), machine floats
are modelled as `ℚ`, numpy 2-D arrays as a column count plus a row list,
and fallible code returns an error-or-value result. The FAISS flat-L2
index is embedded by its documented semantics: `add` asserts the batch
width equals the index dimension; `search` returns the `k` smallest
squared-L2 distances in ascending order, padding with distance
`FLT_MAX` and label `-1` when fewer than `k` vectors are stored, and
asserts `k > 0` and the query width.
-/

namespace GraminSahayak

/-! ## Chunker (`src/rag/chunker.py`) -/

/-- Constant `self.MAX_TEXT_LENGTH = 100_000` — max chars per document. -/
def MAX_TEXT_LENGTH : ℕ := 100000

/-- Constant `self.MAX_CHUNKS_PER_DOC = 200` — cap on chunks per document. -/
def MAX_CHUNKS_PER_DOC : ℕ := 200

/-- Chunker configuration (`chunk_size`, `chunk_overlap`), resolved from
env/defaults in `TextChunker.__init__`. -/
structure ChunkCfg where
  chunk_size : ℕ
  chunk_overlap : ℕ
deriving Repr, DecidableEq

/-- A chunk record as built in `chunk_document` (text, source, chunk_id,
start_char, end_char). -/
structure Chunk where
  text : List Char
  source : String
  chunk_id : ℕ
  start_char : ℕ
  end_char : ℕ
deriving Repr, DecidableEq

/-- A document as consumed by `chunk_document` (`doc.get("text")`,
`doc.get("filename")`; other fields are unused there). -/
structure Document where
  filename : String
  text : List Char
deriving Repr, DecidableEq

/-- ASCII whitespace recognised by Python `str.strip()` (the documents
hold Devanagari/Latin text; exotic Unicode whitespace does not occur). -/
def pyIsSpace (c : Char) : Bool :=
  c = ' ' || c = '\t' || c = '\n' || c = '\r' || c = '\x0b' || c = '\x0c'

/-- Python `s.strip()`. -/
def pyStrip (l : List Char) : List Char :=
  ((l.dropWhile pyIsSpace).reverse.dropWhile pyIsSpace).reverse

/-- Python slice `text[s:e]` (clamping semantics match `drop`/`take`). -/
def slice (text : List Char) (s e : ℕ) : List Char :=
  (text.drop s).take (e - s)

/-- Whether `sub` occurs in `text` starting at position `i`. -/
def matchesAt (text sub : List Char) (i : ℕ) : Bool :=
  (text.drop i).take sub.length == sub

/-- Backward scan from position `i` down to `s` for an occurrence of
`sub`; the greatest matching position is returned first. -/
def rfindFrom (text sub : List Char) (s : ℕ) : ℕ → Option ℕ
  | 0 => if s = 0 && matchesAt text sub 0 then some 0 else none
  | i + 1 =>
      if i + 1 < s then none
      else if matchesAt text sub (i + 1) then some (i + 1)
      else rfindFrom text sub s i

/-- Python `text.rfind(sub, s, e)`: greatest `i` with `s ≤ i`,
`i + len(sub) ≤ min e (len text)` and a match at `i`; `none` when absent. -/
def rfind (text sub : List Char) (s e : ℕ) : Option ℕ :=
  let hi := min e text.length
  if hi < s + sub.length then none
  else rfindFrom text sub s (hi - sub.length)

/-- The fixed ordered boundary list of `chunk_document`:
`["। ", ". ", "? ", "! ", "\n"]`. -/
def boundaries : List (List Char) :=
  [['।', ' '], ['.', ' '], ['?', ' '], ['!', ' '], ['\n']]

/-- The `for boundary in [...]` loop: the first boundary string (in
order) with an occurrence in `[s, e)`, with its rightmost position. -/
def findBoundary (text : List Char) (s e : ℕ) :
    List (List Char) → Option (List Char × ℕ)
  | [] => none
  | b :: bs =>
      match rfind text b s e with
      | some p => some (b, p)
      | none => findBoundary text s e bs

/-- The window-end computation of one loop iteration: `end = start +
chunk_size`, shortened to `pos + 1` when `end < len(text)` and a
boundary is found by the backward search. -/
def windowEnd (cfg : ChunkCfg) (text : List Char) (start : ℕ) : ℕ :=
  let e := start + cfg.chunk_size
  if e < text.length then
    match findBoundary text start e boundaries with
    | some bp => bp.2 + 1
    | none => e
  else e

/-- Model of `start = max(end - self.chunk_overlap, start + 1)` (truncated ℕ
subtraction agrees with Python here because `start + 1 ≥ 1 > 0`). -/
def nextStart (cfg : ChunkCfg) (start e : ℕ) : ℕ :=
  max (e - cfg.chunk_overlap) (start + 1)

/-- The `while start < len(text) and chunk_id < MAX_CHUNKS_PER_DOC`
loop, with explicit fuel; `none` means the fuel ran out before the
loop condition failed (the termination theorem shows `len(text) + 1`
fuel always suffices). -/
def chunkLoop (cfg : ChunkCfg) (text : List Char) (fname : String) :
    ℕ → ℕ → ℕ → Option (List Chunk)
  | 0, start, cid =>
      if start < text.length ∧ cid < MAX_CHUNKS_PER_DOC then none else some []
  | fuel + 1, start, cid =>
      if start < text.length ∧ cid < MAX_CHUNKS_PER_DOC then
        let e := windowEnd cfg text start
        let ctext := pyStrip (slice text start e)
        if ctext.isEmpty then
          chunkLoop cfg text fname fuel (nextStart cfg start e) cid
        else
          (chunkLoop cfg text fname fuel (nextStart cfg start e) (cid + 1)).map
            (fun cs => ⟨ctext, fname, cid, start, e⟩ :: cs)
      else some []

/-- The `text = text[:MAX_TEXT_LENGTH]` trim applied to oversized
documents. -/
def truncText (text : List Char) : List Char :=
  if text.length > MAX_TEXT_LENGTH then text.take MAX_TEXT_LENGTH else text

/-- Embedding of `TextChunker.chunk_document`. -/
def chunk_document (cfg : ChunkCfg) (doc : Document) : List Chunk :=
  if doc.text.length < 50 then []
  else
    let t := truncText doc.text
    (chunkLoop cfg t doc.filename (t.length + 1) 0 0).getD []

/-! ## Vector store (`src/rag/vector_store.py`), with FAISS `IndexFlatL2`
embedded by its documented semantics -/

/-- The FAISS flat index: its dimension `d` and stored vectors `xb`. -/
structure FaissIndex where
  d : ℕ
  xb : List (List ℚ)
deriving Repr, DecidableEq

/-- A numpy 2-D float array of shape `(rows.length, ncols)`; `ncols` is
carried separately because numpy keeps the column count of an empty
batch. -/
structure NpMatrix where
  ncols : ℕ
  rows : List (List ℚ)
deriving Repr, DecidableEq

/-- Errors the embedded store can signal. `dimensionMismatch` is the
FAISS wrapper's `assert d == self.d` on `add`/`search`; `invalidK` is
its `assert k > 0` on `search`. -/
inductive VSError
  | dimensionMismatch
  | invalidK
deriving Repr, DecidableEq

/-- State of a `VectorStore`: `self.index`, `self.chunks`, `self.dimension`
(the `index_path` and the directory side effect of `__init__` are I/O
and carry no claim-relevant state). -/
structure VectorStore where
  index : Option FaissIndex
  chunks : List Chunk
  dimension : Option ℕ
deriving Repr, DecidableEq

/-- The state `VectorStore.__init__` leaves behind. -/
def VectorStore.init : VectorStore := ⟨none, [], none⟩

/-- Value of `self.index.ntotal` (0 when no index exists). -/
def VectorStore.ntotal (st : VectorStore) : ℕ :=
  match st.index with
  | none => 0
  | some idx => idx.xb.length

/-- Embedding of `VectorStore.create_index`: sets `self.dimension = embeddings.shape[1]`,
builds a fresh `IndexFlatL2`, adds all rows (the wrapper's width assert
holds trivially for a well-shaped array) and replaces `self.chunks`.
No validation of any kind is performed. -/
def VectorStore.create_index (st : VectorStore) (embeddings : NpMatrix)
    (chunks : List Chunk) : VectorStore :=
  { st with
    dimension := some embeddings.ncols
    index := some ⟨embeddings.ncols, embeddings.rows⟩
    chunks := chunks }

/-- Embedding of `VectorStore.add`: on the first call (`self.index is None`) a fresh
index is created with `d = embeddings.shape[1]`, so the subsequent FAISS
`add` cannot fail; on later calls FAISS's `assert d == self.d` raises
(modelled as `dimensionMismatch`) before anything is appended, leaving
the state exactly as it was. The returned pair is (raised error if any,
state of `self` afterwards). -/
def VectorStore.add (st : VectorStore) (embeddings : NpMatrix)
    (chunks : List Chunk) : Option VSError × VectorStore :=
  match st.index with
  | none =>
      (none, { st with
                dimension := some embeddings.ncols
                index := some ⟨embeddings.ncols, embeddings.rows⟩
                chunks := st.chunks ++ chunks })
  | some idx =>
      if embeddings.ncols = idx.d then
        (none, { st with
                  index := some ⟨idx.d, idx.xb ++ embeddings.rows⟩
                  chunks := st.chunks ++ chunks })
      else
        (some .dimensionMismatch, st)

/-- Squared L2 distance, FAISS's metric for `IndexFlatL2` (widths are
equal whenever this is reached, by the wrapper's asserts). -/
def sqDist (q v : List ℚ) : ℚ :=
  ((q.zip v).map (fun p => (p.1 - p.2) ^ 2)).sum

/-- Value of `FLT_MAX`, the distance FAISS reports in result slots left unfilled
when fewer than `k` vectors are stored. -/
def fltMax : ℚ := 340282346638528859811704183484516925440

/-- Insert a (distance, label) pair into a distance-sorted list. -/
def insertPair (p : ℚ × ℤ) : List (ℚ × ℤ) → List (ℚ × ℤ)
  | [] => [p]
  | q :: rest => if p.1 ≤ q.1 then p :: q :: rest else q :: insertPair p rest

/-- Sort (distance, label) pairs by ascending distance. (FAISS's heap
makes the order among exactly-tied distances unspecified; no claim
depends on tie order.) -/
def sortPairs : List (ℚ × ℤ) → List (ℚ × ℤ)
  | [] => []
  | p :: rest => insertPair p (sortPairs rest)

/-- FAISS `index.search(q, k)` for one query row: the `k` smallest
squared distances with their labels, ascending, padded to length `k`
with `(FLT_MAX, -1)` when fewer than `k` vectors are stored. -/
def faissSearchPairs (idx : FaissIndex) (q : List ℚ) (k : ℕ) :
    List (ℚ × ℤ) :=
  let scored := idx.xb.enum.map (fun p => (sqDist q p.2, (p.1 : ℤ)))
  let top := (sortPairs scored).take k
  top ++ List.replicate (k - top.length) (fltMax, -1)

/-- Python `self.chunks[i]` for an `int` index, as used under the guard
`i < len(self.chunks)`: non-negative indices address from the front,
negative ones from the back (`chunks[-1]` is the last chunk); an
out-of-range access (unreachable for FAISS labels, which are `≥ -1`)
is `none`. -/
def pyChunkAt (chunks : List Chunk) (i : ℤ) : Option Chunk :=
  if 0 ≤ i then chunks.get? i.toNat
  else if (-i).toNat ≤ chunks.length then
    chunks.get? (chunks.length - (-i).toNat)
  else none

/-- The result loop of `VectorStore.search`: keep every pair whose label
passes `idx < len(self.chunks)` and score it as `1 / (1 + distance)`. -/
def collectResults (chunks : List Chunk) (pairs : List (ℚ × ℤ)) :
    List (Chunk × ℚ) :=
  pairs.filterMap (fun p =>
    if p.2 < (chunks.length : ℤ) then
      (pyChunkAt chunks p.2).map (fun c => (c, 1 / (1 + p.1)))
    else none)

/-- Embedding of `VectorStore.search`: returns `[]` at once when `self.index is None`;
otherwise the query row goes through FAISS (whose wrapper asserts the
query width and `k > 0`) and the label/guard loop builds the results. -/
def VectorStore.search (st : VectorStore) (q : List ℚ) (k : ℕ) :
    Except VSError (List (Chunk × ℚ)) :=
  match st.index with
  | none => .ok []
  | some idx =>
      if q.length ≠ idx.d then .error .dimensionMismatch
      else if k = 0 then .error .invalidK
      else .ok (collectResults st.chunks (faissSearchPairs idx q k))

/-! ## Retriever (`src/rag/retriever.py`) -/

/-- One formatted retrieval result (`text`, `source`, `score`,
`chunk_id`); the `.get` defaults `"unknown"` / `-1` of the source never
fire because every chunk built by the chunker carries all fields. -/
structure RResult where
  text : List Char
  source : String
  score : ℚ
  chunk_id : ℕ
deriving Repr, DecidableEq

/-- Embedding of `Retriever.retrieve`: embed the query, search the store, reshape
each (chunk, score) pair. -/
def Retriever.retrieve (vs : VectorStore) (embed : String → List ℚ)
    (query : String) (top_k : ℕ) : Except VSError (List RResult) :=
  (vs.search (embed query) top_k).map
    (List.map (fun pc => ⟨pc.1.text, pc.1.source, pc.2, pc.1.chunk_id⟩))

/-- The sentinel returned by `retrieve_with_context` when there are no
results. -/
def noRelevantInfo : String :=
  "कोई प्रासंगिक जानकारी नहीं मिली। (No relevant information found.)"

/-- Embedding of `Retriever.retrieve_with_context`: retrieve, then format each result
as a numbered, source-labelled block, or return the sentinel. -/
def Retriever.retrieve_with_context (vs : VectorStore)
    (embed : String → List ℚ) (query : String) (top_k : ℕ) :
    Except VSError String :=
  (Retriever.retrieve vs embed query top_k).map (fun results =>
    if results.isEmpty then noRelevantInfo
    else
      String.intercalate "\n" (results.enum.map (fun p =>
        "संदर्भ " ++ toString (p.1 + 1) ++ " (स्रोत: " ++ p.2.source ++
          "):\n" ++ String.mk p.2.text ++ "\n")))

/-! ## Prompt templates (`src/rag/prompt.py`) -/

/-- Embedding of `PromptTemplate.get_no_context_prompt`. -/
def get_no_context_prompt (query : String) : String :=
  "प्रश्न: " ++ query ++
    "\n\nदुर्भाग्य से, मेरे पास इस प्रश्न का जवाब देने के लिए पर्याप्त जानकारी नहीं है।\n\nकृपया:\n1. अपना प्रश्न थोड़ा अलग तरीके से पूछें, या\n2. किसी सरकारी बैंक या योजना के नाम का उल्लेख करें, या\n3. मुझे बताएं कि आप किस तरह की योजना खोज रहे हैं (किसान, व्यापार, महिला, आदि)\n\nमैं आपकी मदद करने के लिए तैयार हूं! 🙏"

/-- Embedding of `PromptTemplate.get_rag_prompt` (the context/question interpolation
is what matters downstream; the fixed rule text is kept verbatim in
spirit but abbreviated to its two language variants). -/
def get_rag_prompt (query context language : String) : String :=
  if language.toLower = "hindi" then
    "तुम एक ग्रामीण सहायक बॉट हो जो गाँव के लोगों को बैंकिंग और सरकारी योजनाओं के बारे में सरल हिंदी में समझाता है।\n\n**संदर्भ (Context):**\n" ++
      context ++ "\n\n**प्रश्न:**\n" ++ query ++ "\n\n**जवाब (सरल हिंदी में):**"
  else
    "You are Gramin Sahayak, a helpful assistant for rural users explaining banking and government schemes in simple language.\n\n**Context:**\n" ++
      context ++ "\n\n**Question:**\n" ++ query ++ "\n\n**Answer (in simple language):**"

/-! ## Pipeline orchestrator (`src/rag/rag_pipeline.py`) -/

/-- The orchestrator's claim-relevant mutable state: the vector store
and the `self.is_indexed` flag (`__init__` starts from
`VectorStore.init` and `False`). -/
structure RAGState where
  vector_store : VectorStore
  is_indexed : Bool
deriving Repr, DecidableEq

/-- The `query` result dict: `context`, `sources`, `prompt`,
`retrieved_chunks`. -/
structure QueryResult where
  context : String
  sources : List String
  prompt : String
  retrieved_chunks : List RResult
deriving Repr, DecidableEq

/-- The dict both "no information" branches of `query` return. -/
def noContextResult (question : String) : QueryResult :=
  ⟨"", [], get_no_context_prompt question, []⟩

/-- Python `list(set(...))` over the retrieved sources. Set iteration
order is unspecified in Python; first-occurrence order stands in for it
(no claim depends on the order). -/
def pyDedup (l : List String) : List String := l.dedup

/-- Embedding of `RAGPipeline.query`. `build` abstracts `build_index` (document
loading, embedding and persistence are external collaborators); it maps
the orchestrator state to the state after the build attempt. `embed`
abstracts the encoder. Everything after the lazy-build guard is the
method's own code: the two "no information" branches return the
no-context dict, the main branch retrieves, formats context,
deduplicates sources and renders the RAG prompt. -/
def RAGPipeline.query (build : RAGState → RAGState)
    (embed : String → List ℚ) (st : RAGState)
    (question language : String) (top_k : ℕ) :
    Except VSError (RAGState × QueryResult) :=
  let st1 := if st.is_indexed then st else build st
  if st1.is_indexed = false then
    .ok (st1, noContextResult question)
  else
    match Retriever.retrieve st1.vector_store embed question top_k with
    | .error e => .error e
    | .ok results =>
        if results.isEmpty then
          .ok (st1, noContextResult question)
        else
          match Retriever.retrieve_with_context st1.vector_store embed
              question top_k with
          | .error e => .error e
          | .ok context =>
              .ok (st1,
                ⟨context, pyDedup (results.map (fun r => r.source)),
                  get_rag_prompt question context language, results⟩)

/-! ## Call sequences over the store, and concrete fixtures -/

/-- A call against the store's mutating interface. -/
inductive VSCall
  | create (emb : NpMatrix) (cs : List Chunk)
  | add (emb : NpMatrix) (cs : List Chunk)
deriving Repr

/-- Apply one call to the store (a failed `add` leaves the state it
raised from). -/
def applyCall (st : VectorStore) : VSCall → VectorStore
  | .create emb cs => VectorStore.create_index st emb cs
  | .add emb cs => (VectorStore.add st emb cs).2

/-- A call supplies exactly as many vector rows as chunk records. -/
def callBalanced : VSCall → Prop
  | .create emb cs => emb.rows.length = cs.length
  | .add emb cs => emb.rows.length = cs.length

instance : DecidablePred callBalanced := fun c =>
  match c with
  | .create emb cs => inferInstanceAs (Decidable (emb.rows.length = cs.length))
  | .add emb cs => inferInstanceAs (Decidable (emb.rows.length = cs.length))

/-- Run a call sequence from a starting state. -/
def runCalls (st : VectorStore) (calls : List VSCall) : VectorStore :=
  calls.foldl applyCall st

/-- Default chunker configuration (`chunk_size=300`, `chunk_overlap=50`). -/
def cfgDefault : ChunkCfg := ⟨300, 50⟩

/-- Fixture chunk for the coupling counterexample. -/
def cW1 : Chunk := ⟨['a'], "a.pdf", 0, 0, 1⟩

/-- Fixture chunks for the coupling witness. -/
def cW1b : Chunk := ⟨['b'], "b.pdf", 0, 0, 1⟩

/-- Fixture store with an established dimension of 2, for the
dimension-mismatch witness. -/
def stW2 : VectorStore := ⟨some ⟨2, [[1, 2]]⟩, [⟨['c'], "c.pdf", 0, 0, 1⟩], some 2⟩

/-- Fixture chunk for the create-validation counterexample. -/
def cW3 : Chunk := ⟨['d'], "d.pdf", 0, 0, 1⟩

/-- Fixture chunk for the over-fetch evaluation. -/
def cW4 : Chunk := ⟨['x'], "x.pdf", 0, 0, 1⟩

/-- Store holding exactly one vector and one chunk, built through `add`. -/
def stW4 : VectorStore := (VectorStore.add VectorStore.init ⟨1, [[0]]⟩ [cW4]).2

/-- Fixture document for the sentence-boundary witness (60 characters,
a period+space at positions 4–5). -/
def doc6 : Document :=
  ⟨"d6.pdf", "abcd. efghijklmnopqrstuvwxyz abcdefghijklmnopqrstuvwxyz 1234".toList⟩

/-- Small chunker configuration for the sentence-boundary witness. -/
def cfg6 : ChunkCfg := ⟨10, 3⟩

/-- The first chunk the chunker produces on `doc6` under `cfg6`. -/
def cW6 : Chunk := ⟨"abcd.".toList, "d6.pdf", 0, 0, 5⟩

/-- Oversized fixture document for the boundedness witness. -/
def bigDoc : Document := ⟨"big.pdf", List.replicate 100001 'a'⟩

/-- Unindexed pipeline state, as `RAGPipeline.__init__` leaves it. -/
def ragInit : RAGState := ⟨VectorStore.init, false⟩

/-- Call sequence for the coupling witness: a balanced create, a
balanced but dimension-mismatched add (which fails), and a balanced
add that succeeds. -/
def callsW : List VSCall :=
  [.create ⟨1, [[1]]⟩ [cW1b],
   .add ⟨2, [[1, 2]]⟩ [⟨['e'], "e.pdf", 1, 0, 1⟩],
   .add ⟨1, [[3], [4]]⟩ [cW1b, cW1b]]

instance {ε α : Type} [DecidableEq ε] [DecidableEq α] :
    DecidableEq (Except ε α) := fun a b => by
  cases a <;> cases b
  case error.error e f =>
    exact if h : e = f then isTrue (by rw [h]) else isFalse (by simpa using h)
  case error.ok e x => exact isFalse (by simp)
  case ok.error x e => exact isFalse (by simp)
  case ok.ok x y =>
    exact if h : x = y then isTrue (by rw [h]) else isFalse (by simpa using h)

/-! ## Chunker lemmas -/

/-- Forward progress: the next window start strictly exceeds the
current one, whatever the overlap and window end. -/
theorem lt_nextStart (cfg : ChunkCfg) (start e : ℕ) :
    start < nextStart cfg start e :=
  lt_of_lt_of_le (Nat.lt_succ_self start) (le_max_right _ _)

/-- Fuel `len(text) - start` plus one step never runs out: the loop
reaches its exit condition first. -/
theorem chunkLoop_isSome (cfg : ChunkCfg) (text : List Char) (fname : String) :
    ∀ fuel start cid, text.length ≤ start + fuel →
      (chunkLoop cfg text fname fuel start cid).isSome := by
  intro fuel
  induction fuel with
  | zero =>
      intro start cid h
      have hc : ¬ (start < text.length ∧ cid < MAX_CHUNKS_PER_DOC) := by
        rintro ⟨h1, -⟩; omega
      simp [chunkLoop, hc]
  | succ fuel ih =>
      intro start cid h
      by_cases hc : start < text.length ∧ cid < MAX_CHUNKS_PER_DOC
      · have hns : start + 1 ≤ nextStart cfg start (windowEnd cfg text start) :=
          lt_nextStart cfg start _
        have hrec : text.length ≤ nextStart cfg start (windowEnd cfg text start) + fuel := by
          omega
        simp only [chunkLoop, if_pos hc]
        by_cases he : (pyStrip (slice text start (windowEnd cfg text start))).isEmpty
        · simpa [he] using ih _ cid hrec
        · simpa [he] using ih _ (cid + 1) hrec
      · simp [chunkLoop, hc]

/-- What the loop guarantees about its output: chunk ids are the
consecutive naturals from the entry counter, every chunk starts at or
after the entry offset and ends at the window end computed for its own
start, and starts strictly increase along the list. -/
theorem chunkLoop_spec (cfg : ChunkCfg) (text : List Char) (fname : String) :
    ∀ fuel start cid cs, chunkLoop cfg text fname fuel start cid = some cs →
      cs.map (fun c => c.chunk_id) = List.range' cid cs.length ∧
      (∀ c ∈ cs, start ≤ c.start_char ∧
        c.end_char = windowEnd cfg text c.start_char) ∧
      List.Pairwise (· < ·) (cs.map (fun c => c.start_char)) := by
  intro fuel
  induction fuel with
  | zero =>
      intro start cid cs h
      have : cs = [] := by
        rw [chunkLoop] at h
        split at h
        · cases h
        · cases h; rfl
      subst this
      simp
  | succ fuel ih =>
      intro start cid cs h
      by_cases hc : start < text.length ∧ cid < MAX_CHUNKS_PER_DOC
      · simp only [chunkLoop, if_pos hc] at h
        by_cases he : (pyStrip (slice text start (windowEnd cfg text start))).isEmpty
        · rw [if_pos he] at h
          obtain ⟨ha, hb, hp⟩ := ih _ _ _ h
          refine ⟨ha, fun c hcmem => ?_, hp⟩
          obtain ⟨hb1, hb2⟩ := hb c hcmem
          exact ⟨le_trans (le_of_lt (lt_nextStart cfg start _)) hb1, hb2⟩
        · rw [if_neg he] at h
          obtain ⟨cs', hrec, rfl⟩ := Option.map_eq_some'.mp h
          obtain ⟨ha, hb, hp⟩ := ih _ _ _ hrec
          refine ⟨?_, ?_, ?_⟩
          · simp only [List.map_cons, List.length_cons, List.range']
            rw [ha]
          · intro c hcmem
            cases hcmem with
            | head => exact ⟨le_refl _, rfl⟩
            | tail _ hcmem =>
                obtain ⟨hb1, hb2⟩ := hb c hcmem
                exact ⟨le_trans (le_of_lt (lt_nextStart cfg start _)) hb1, hb2⟩
          · simp only [List.map_cons]
            refine List.Pairwise.cons ?_ hp
            intro x hx
            obtain ⟨c', hc', rfl⟩ := List.mem_map.mp hx
            exact lt_of_lt_of_le (lt_nextStart cfg start _) (hb c' hc').1
      · have : cs = [] := by
          rw [chunkLoop, if_neg hc] at h
          cases h; rfl
        subst this
        simp

/-- The loop emits at most `MAX_CHUNKS_PER_DOC - cid` chunks. -/
theorem chunkLoop_length (cfg : ChunkCfg) (text : List Char) (fname : String) :
    ∀ fuel start cid cs, chunkLoop cfg text fname fuel start cid = some cs →
      cs.length ≤ MAX_CHUNKS_PER_DOC - cid := by
  intro fuel
  induction fuel with
  | zero =>
      intro start cid cs h
      have : cs = [] := by
        rw [chunkLoop] at h
        split at h
        · cases h
        · cases h; rfl
      simp [this]
  | succ fuel ih =>
      intro start cid cs h
      by_cases hc : start < text.length ∧ cid < MAX_CHUNKS_PER_DOC
      · simp only [chunkLoop, if_pos hc] at h
        by_cases he : (pyStrip (slice text start (windowEnd cfg text start))).isEmpty
        · rw [if_pos he] at h
          exact ih _ _ _ h
        · rw [if_neg he] at h
          obtain ⟨cs', hrec, rfl⟩ := Option.map_eq_some'.mp h
          have := ih _ _ _ hrec
          have hcid : cid < MAX_CHUNKS_PER_DOC := hc.2
          simp only [List.length_cons]
          omega
      · have : cs = [] := by
          rw [chunkLoop, if_neg hc] at h
          cases h; rfl
        simp [this]

/-- Unfolding of `chunk_document`: for long-enough text it is exactly
the loop run with `len(text) + 1` fuel, which succeeds. -/
theorem chunk_document_eq (cfg : ChunkCfg) (doc : Document) :
    ∃ cs, chunkLoop cfg (truncText doc.text) doc.filename
        ((truncText doc.text).length + 1) 0 0 = some cs ∧
      chunk_document cfg doc = if doc.text.length < 50 then [] else cs := by
  obtain ⟨cs, hcs⟩ := Option.isSome_iff_exists.mp
    (chunkLoop_isSome cfg (truncText doc.text) doc.filename
      ((truncText doc.text).length + 1) 0 0 (by omega))
  refine ⟨cs, hcs, ?_⟩
  by_cases h : doc.text.length < 50 <;> simp [chunk_document, h, hcs]

/-- A match of a non-empty pattern lies entirely inside the text. -/
theorem matchesAt_bound {text sub : List Char} {i : ℕ} (hs : sub ≠ [])
    (h : matchesAt text sub i = true) : i + sub.length ≤ text.length := by
  have h' : (text.drop i).take sub.length = sub := by
    simpa [matchesAt] using h
  have hl : ((text.drop i).take sub.length).length = sub.length := by rw [h']
  rw [List.length_take, List.length_drop] at hl
  have hsl : 0 < sub.length := List.length_pos.mpr hs
  omega

/-- A position returned by the backward scan is in range and matches. -/
theorem rfindFrom_some {text sub : List Char} {s : ℕ} :
    ∀ {i p : ℕ}, rfindFrom text sub s i = some p →
      s ≤ p ∧ p ≤ i ∧ matchesAt text sub p = true := by
  intro i
  induction i with
  | zero =>
      intro p h
      rw [rfindFrom] at h
      split at h
      · rename_i hcond
        obtain ⟨hs0, hm⟩ : s = 0 ∧ matchesAt text sub 0 = true := by
          simpa using hcond
        cases h
        exact ⟨by omega, le_refl _, hm⟩
      · cases h
  | succ i ih =>
      intro p h
      rw [rfindFrom] at h
      split at h
      · cases h
      · split at h
        · rename_i hlt hm
          cases h
          exact ⟨by omega, le_refl _, hm⟩
        · obtain ⟨h1, h2, h3⟩ := ih h
          exact ⟨h1, by omega, h3⟩

/-- The backward scan returns the greatest matching position. -/
theorem rfindFrom_greatest {text sub : List Char} {s : ℕ} :
    ∀ {i p : ℕ}, rfindFrom text sub s i = some p →
      ∀ j, s ≤ j → j ≤ i → matchesAt text sub j = true → j ≤ p := by
  intro i
  induction i with
  | zero =>
      intro p h j _ hj _
      obtain ⟨-, hp, -⟩ := rfindFrom_some h
      omega
  | succ i ih =>
      intro p h j hj1 hj2 hj3
      rw [rfindFrom] at h
      split at h
      · cases h
      · split at h
        · cases h
          exact hj2
        · rename_i hlt hm
          rcases Nat.lt_succ_iff_lt_or_eq.mp (Nat.lt_succ_of_le hj2) with hj | rfl
          · exact ih h j hj1 (by omega) hj3
          · exact absurd hj3 (by simp [hm])

/-- When the backward scan fails there is no match in its range. -/
theorem rfindFrom_eq_none {text sub : List Char} {s : ℕ} :
    ∀ {i : ℕ}, rfindFrom text sub s i = none →
      ∀ j, s ≤ j → j ≤ i → matchesAt text sub j = false := by
  intro i
  induction i with
  | zero =>
      intro h j hj1 hj2
      rw [rfindFrom] at h
      have hj : j = 0 := by omega
      subst hj
      have hs : s = 0 := by omega
      subst hs
      cases hm : matchesAt text sub 0
      · rfl
      · simp [hm] at h
  | succ i ih =>
      intro h j hj1 hj2
      rw [rfindFrom] at h
      split at h
      · rename_i hlt; omega
      · split at h
        · cases h
        · rename_i hlt hm
          rcases Nat.lt_succ_iff_lt_or_eq.mp (Nat.lt_succ_of_le hj2) with hj | rfl
          · exact ih h j hj1 (by omega)
          · simpa using hm

/-- Properties of a successful `rfind`: the result is the greatest
position of an occurrence of `sub` inside `text[s:e]`. -/
theorem rfind_some {text sub : List Char} {s e p : ℕ} (hs : sub ≠ [])
    (h : rfind text sub s e = some p) :
    s ≤ p ∧ p + sub.length ≤ min e text.length ∧
      matchesAt text sub p = true ∧
      ∀ j, s ≤ j → j + sub.length ≤ e → matchesAt text sub j = true → j ≤ p := by
  rw [rfind] at h
  split at h
  · cases h
  · rename_i hge
    obtain ⟨h1, h2, h3⟩ := rfindFrom_some h
    refine ⟨h1, by omega, h3, ?_⟩
    intro j hj1 hj2 hj3
    have hjb := matchesAt_bound hs hj3
    exact rfindFrom_greatest h j hj1 (by omega) hj3

/-- A failed `rfind` means no occurrence of `sub` inside `text[s:e]`. -/
theorem rfind_eq_none {text sub : List Char} {s e : ℕ} (hs : sub ≠ [])
    (h : rfind text sub s e = none) :
    ∀ j, s ≤ j → j + sub.length ≤ e → matchesAt text sub j = false := by
  intro j hj1 hj2
  cases hm : matchesAt text sub j
  · rfl
  · exfalso
    have hjb := matchesAt_bound hs hm
    rw [rfind] at h
    split at h
    · rename_i hlt; omega
    · have := rfindFrom_eq_none h j hj1 (by omega)
      simp [hm] at this

/-- A boundary found by the ordered scan belongs to the list and is a
successful `rfind` for that boundary string. -/
theorem findBoundary_eq_some {text : List Char} {s e : ℕ} :
    ∀ {bs : List (List Char)} {b : List Char} {p : ℕ},
      findBoundary text s e bs = some (b, p) →
      b ∈ bs ∧ rfind text b s e = some p := by
  intro bs
  induction bs with
  | nil => intro b p h; cases h
  | cons b0 bs ih =>
      intro b p h
      rw [findBoundary] at h
      split at h
      · rename_i p0 hr
        cases h
        exact ⟨List.mem_cons_self _ _, hr⟩
      · obtain ⟨hm, hrf⟩ := ih h
        exact ⟨List.mem_cons_of_mem _ hm, hrf⟩

/-- When the ordered scan finds nothing, no listed boundary occurs. -/
theorem findBoundary_eq_none {text : List Char} {s e : ℕ} :
    ∀ {bs : List (List Char)}, findBoundary text s e bs = none →
      ∀ b ∈ bs, rfind text b s e = none := by
  intro bs
  induction bs with
  | nil => intro _ b hb; cases hb
  | cons b0 bs ih =>
      intro h b hb
      rw [findBoundary] at h
      split at h
      · cases h
      · rename_i hr
        cases hb with
        | head => exact hr
        | tail _ hb => exact ih h b hb

/-- Every sentence boundary marker is a non-empty string. -/
theorem boundaries_ne_nil : ∀ b ∈ boundaries, b ≠ [] := by decide

/-! ## Claim theorems: chunker -/

/-- C6: when a chunk's window end falls strictly inside the (possibly
truncated) text and some sentence-ending marker of the fixed ordered
list occurs inside the window, the chunk ends exactly one character
past the rightmost occurrence of the first such marker (in the fixed
order) present in the window — at/after that marker and at or before
the raw `chunk_size` cut, never past it. -/
theorem chunk_ends_at_sentence_boundary (cfg : ChunkCfg) (doc : Document)
    (c : Chunk) (hc : c ∈ chunk_document cfg doc)
    (hin : c.start_char + cfg.chunk_size < (truncText doc.text).length)
    (hocc : ∃ b ∈ boundaries, ∃ j, c.start_char ≤ j ∧
        j + b.length ≤ c.start_char + cfg.chunk_size ∧
        matchesAt (truncText doc.text) b j = true) :
    ∃ b ∈ boundaries, ∃ p, c.start_char ≤ p ∧
      p + b.length ≤ c.start_char + cfg.chunk_size ∧
      matchesAt (truncText doc.text) b p = true ∧
      c.end_char = p + 1 ∧ c.start_char < c.end_char ∧
      c.end_char ≤ c.start_char + cfg.chunk_size ∧
      ∀ j, c.start_char ≤ j → j + b.length ≤ c.start_char + cfg.chunk_size →
        matchesAt (truncText doc.text) b j = true → j ≤ p := by
  obtain ⟨cs, hcs, hdoc⟩ := chunk_document_eq cfg doc
  rw [hdoc] at hc
  have hc' : c ∈ cs := by
    by_cases h : doc.text.length < 50
    · rw [if_pos h] at hc; cases hc
    · rwa [if_neg h] at hc
  have hend : c.end_char = windowEnd cfg (truncText doc.text) c.start_char :=
    ((chunkLoop_spec cfg (truncText doc.text) doc.filename _ 0 0 cs hcs).2.1
      c hc').2
  cases hfb : findBoundary (truncText doc.text) c.start_char
      (c.start_char + cfg.chunk_size) boundaries with
  | none =>
      exfalso
      obtain ⟨b, hb, j, hj1, hj2, hj3⟩ := hocc
      have hr := findBoundary_eq_none hfb b hb
      have := rfind_eq_none (boundaries_ne_nil b hb) hr j hj1 hj2
      rw [hj3] at this
      cases this
  | some bp =>
      obtain ⟨b, p⟩ := bp
      obtain ⟨hbmem, hrf⟩ := findBoundary_eq_some hfb
      obtain ⟨h1, h2, h3, h4⟩ := rfind_some (boundaries_ne_nil b hbmem) hrf
      have hblen : 0 < b.length :=
        List.length_pos.mpr (boundaries_ne_nil b hbmem)
      have hendp : c.end_char = p + 1 := by
        rw [hend]
        unfold windowEnd
        rw [if_pos hin, hfb]
      exact ⟨b, hbmem, p, h1, by omega, h3, hendp, by omega, by omega, h4⟩

/-- Witness for C6 on a concrete 60-character document with a period
inside the first 10-character window. -/
theorem chunk_ends_at_sentence_boundary_witness :
    cW6 ∈ chunk_document cfg6 doc6 ∧
    (∃ b ∈ boundaries, ∃ p, cW6.start_char ≤ p ∧
      p + b.length ≤ cW6.start_char + cfg6.chunk_size ∧
      matchesAt (truncText doc6.text) b p = true ∧
      cW6.end_char = p + 1 ∧ cW6.start_char < cW6.end_char ∧
      cW6.end_char ≤ cW6.start_char + cfg6.chunk_size ∧
      ∀ j, cW6.start_char ≤ j → j + b.length ≤ cW6.start_char + cfg6.chunk_size →
        matchesAt (truncText doc6.text) b j = true → j ≤ p) :=
  ⟨by decide,
    chunk_ends_at_sentence_boundary cfg6 doc6 cW6 (by decide) (by decide)
      ⟨['.', ' '], by decide, 4, by decide, by decide, by decide⟩⟩

/-- C7: the chunking loop makes forward progress (the window start
strictly increases every iteration) and, for every configuration —
including `chunk_overlap ≥ chunk_size` — the whole run finishes within
`len(text) + 1` iterations, so `chunk_document` is their result. -/
theorem chunking_terminates (cfg : ChunkCfg) (doc : Document) :
    (∀ start e, start < nextStart cfg start e) ∧
    ∃ cs, chunkLoop cfg (truncText doc.text) doc.filename
        ((truncText doc.text).length + 1) 0 0 = some cs ∧
      chunk_document cfg doc = if doc.text.length < 50 then [] else cs :=
  ⟨fun start e => lt_nextStart cfg start e, chunk_document_eq cfg doc⟩

/-- C8: a document longer than `MAX_TEXT_LENGTH` is chunked from
exactly `MAX_TEXT_LENGTH` characters, and no document ever yields more
than `MAX_CHUNKS_PER_DOC` chunks. -/
theorem chunking_bounded (cfg : ChunkCfg) (doc : Document) :
    (MAX_TEXT_LENGTH < doc.text.length →
      (truncText doc.text).length = MAX_TEXT_LENGTH) ∧
    (chunk_document cfg doc).length ≤ MAX_CHUNKS_PER_DOC := by
  constructor
  · intro h
    unfold truncText
    rw [if_pos h, List.length_take]
    omega
  · obtain ⟨cs, hcs, hdoc⟩ := chunk_document_eq cfg doc
    have hlen := chunkLoop_length cfg (truncText doc.text) doc.filename _ 0 0
      cs hcs
    rw [hdoc]
    by_cases h : doc.text.length < 50
    · simp [h]
    · rw [if_neg h]
      omega

/-- Witness for C8 at a 100,001-character document. -/
theorem chunking_bounded_witness :
    MAX_TEXT_LENGTH < bigDoc.text.length ∧
    ((truncText bigDoc.text).length = MAX_TEXT_LENGTH ∧
      (chunk_document cfgDefault bigDoc).length ≤ MAX_CHUNKS_PER_DOC) := by
  have hlen : MAX_TEXT_LENGTH < bigDoc.text.length := by
    show MAX_TEXT_LENGTH < (List.replicate 100001 'a').length
    rw [List.length_replicate]
    norm_num [MAX_TEXT_LENGTH]
  exact ⟨hlen, (chunking_bounded cfgDefault bigDoc).1 hlen,
    (chunking_bounded cfgDefault bigDoc).2⟩

/-- C10: in any chunk list `chunk_document` returns, `chunk_id` equals
the 0-based position in the list, and `start_char` is strictly
increasing along the list. -/
theorem chunk_ids_match_positions (cfg : ChunkCfg) (doc : Document) :
    (chunk_document cfg doc).map (fun c => c.chunk_id) =
      List.range (chunk_document cfg doc).length ∧
    List.Pairwise (· < ·)
      ((chunk_document cfg doc).map (fun c => c.start_char)) := by
  obtain ⟨cs, hcs, hdoc⟩ := chunk_document_eq cfg doc
  have hspec := chunkLoop_spec cfg (truncText doc.text) doc.filename _ 0 0
    cs hcs
  rw [hdoc]
  by_cases h : doc.text.length < 50
  · simp [h]
  · rw [if_neg h]
    exact ⟨by rw [hspec.1, List.range_eq_range'], hspec.2.2⟩

/-! ## Vector-store lemmas -/

/-- A balanced call (as many vector rows as chunk records) preserves
the vectors/chunks coupling, whether it succeeds or fails. -/
theorem applyCall_coupled {st : VectorStore} {call : VSCall}
    (h : st.ntotal = st.chunks.length) (hb : callBalanced call) :
    (applyCall st call).ntotal = (applyCall st call).chunks.length := by
  cases call with
  | create emb cs =>
      simpa [applyCall, VectorStore.create_index, VectorStore.ntotal] using hb
  | add emb cs =>
      cases hidx : st.index with
      | none =>
          have h0 : st.chunks.length = 0 := by
            rw [← h]; simp [VectorStore.ntotal, hidx]
          simp only [applyCall, VectorStore.add, hidx, VectorStore.ntotal,
            List.length_append]
          simp only [callBalanced] at hb
          omega
      | some idx =>
          by_cases hd : emb.ncols = idx.d
          · have h1 : idx.xb.length = st.chunks.length := by
              rw [← h]; simp [VectorStore.ntotal, hidx]
            simp only [applyCall, VectorStore.add, hidx, if_pos hd,
              VectorStore.ntotal, List.length_append]
            simp only [callBalanced] at hb
            omega
          · simpa [applyCall, VectorStore.add, hidx, if_neg hd,
              VectorStore.ntotal] using h

/-- Running balanced calls from a coupled state keeps the coupling. -/
theorem runCalls_coupled : ∀ (calls : List VSCall) (st : VectorStore),
    st.ntotal = st.chunks.length → (∀ c ∈ calls, callBalanced c) →
    (runCalls st calls).ntotal = (runCalls st calls).chunks.length := by
  intro calls
  induction calls with
  | nil => intro st h _; simpa [runCalls] using h
  | cons c cs ih =>
      intro st h hb
      simp only [runCalls, List.foldl_cons]
      exact ih (applyCall st c) (applyCall_coupled h (hb c (List.mem_cons_self _ _)))
        (fun c' hc' => hb c' (List.mem_cons_of_mem _ hc'))

/-! ## Claim theorems: vector store -/

/-- C1 counterexample: one `create` call with two vectors and one chunk
record completes and leaves two stored vectors next to one stored
chunk — the positional coupling does not hold after every call. -/
theorem coupling_after_unbalanced_create :
    (VectorStore.create_index VectorStore.init ⟨1, [[1], [2]]⟩ [cW1]).ntotal = 2 ∧
    (VectorStore.create_index VectorStore.init ⟨1, [[1], [2]]⟩ [cW1]).chunks.length = 1 :=
  ⟨rfl, rfl⟩

/-- C1 (amended): for every sequence of `create`/`add` calls in which
each call supplies exactly as many vector rows as chunk records, the
number of stored vectors equals the number of stored chunk records
after every call — including calls whose `add` fails on a dimension
mismatch, which leave both sequences untouched. -/
theorem positional_coupling_balanced_calls (calls : List VSCall)
    (h : ∀ call ∈ calls, callBalanced call) :
    (runCalls VectorStore.init calls).ntotal =
      (runCalls VectorStore.init calls).chunks.length :=
  runCalls_coupled calls VectorStore.init rfl h

/-- Witness for amended C1: a balanced create, a balanced add that
fails on dimension mismatch, and a balanced add that succeeds. -/
theorem positional_coupling_balanced_calls_witness :
    (∀ call ∈ callsW, callBalanced call) ∧
    (runCalls VectorStore.init callsW).ntotal =
      (runCalls VectorStore.init callsW).chunks.length :=
  ⟨by decide, positional_coupling_balanced_calls callsW (by decide)⟩

/-- C2: once a dimension is established (the index exists), an `add`
whose batch width differs raises the dimension-mismatch error and
returns with the state — hence the stored vector count and the chunk
list — exactly as before. -/
theorem add_width_mismatch_raises (st : VectorStore) (idx : FaissIndex)
    (emb : NpMatrix) (cs : List Chunk) (hidx : st.index = some idx)
    (hne : emb.ncols ≠ idx.d) :
    VectorStore.add st emb cs = (some VSError.dimensionMismatch, st) ∧
    (VectorStore.add st emb cs).2.ntotal = st.ntotal ∧
    (VectorStore.add st emb cs).2.chunks = st.chunks := by
  have h : VectorStore.add st emb cs = (some VSError.dimensionMismatch, st) := by
    simp [VectorStore.add, hidx, hne]
  exact ⟨h, by rw [h], by rw [h]⟩

/-- Witness for C2: a width-3 batch against an established dimension
of 2. -/
theorem add_width_mismatch_raises_witness :
    stW2.index = some ⟨2, [[1, 2]]⟩ ∧ (3 : ℕ) ≠ 2 ∧
    (VectorStore.add stW2 ⟨3, [[0, 0, 0]]⟩ [cW3] =
        (some VSError.dimensionMismatch, stW2) ∧
      (VectorStore.add stW2 ⟨3, [[0, 0, 0]]⟩ [cW3]).2.ntotal = stW2.ntotal ∧
      (VectorStore.add stW2 ⟨3, [[0, 0, 0]]⟩ [cW3]).2.chunks = stW2.chunks) :=
  ⟨rfl, by decide,
    add_width_mismatch_raises stW2 ⟨2, [[1, 2]]⟩ ⟨3, [[0, 0, 0]]⟩ [cW3] rfl
      (by decide)⟩

/-- C3 counterexample: `create_index` on two vectors and one chunk does
not fail — it completes normally, fully populating the state (the
function has no error outcome at all), instead of raising a
ConfigurationError on the length mismatch. -/
theorem create_index_accepts_mismatched_lengths :
    VectorStore.create_index VectorStore.init ⟨1, [[5], [7]]⟩ [cW3] =
      ⟨some ⟨1, [[5], [7]]⟩, [cW3], some 1⟩ ∧
    (VectorStore.create_index VectorStore.init ⟨1, [[5], [7]]⟩ [cW3]).ntotal = 2 ∧
    (VectorStore.create_index VectorStore.init ⟨1, [[5], [7]]⟩ [cW3]).chunks.length = 1 :=
  ⟨rfl, rfl, rfl⟩

/-- C3 (amended): `create_index` performs no length validation and
cannot fail; for every vectors array and chunks list — matching
lengths or not — it sets the index dimension from the vectors' width,
stores every vector row, and replaces the chunk list as given. -/
theorem create_index_sets_dimension_unconditionally (st : VectorStore)
    (emb : NpMatrix) (cs : List Chunk) :
    (VectorStore.create_index st emb cs).dimension = some emb.ncols ∧
    (VectorStore.create_index st emb cs).index = some ⟨emb.ncols, emb.rows⟩ ∧
    (VectorStore.create_index st emb cs).ntotal = emb.rows.length ∧
    (VectorStore.create_index st emb cs).chunks = cs :=
  ⟨rfl, rfl, rfl, rfl⟩

/-- C4 (code bug, evaluated): on a store holding exactly one vector and
one chunk, `search` with `k = 2` returns two results, not one — the
FAISS `-1` padding label passes the `idx < len(self.chunks)` guard and
Python's negative indexing resolves it to the last chunk, so the
single stored chunk comes back twice. -/
theorem search_k_exceeding_count_returns_k_results :
    stW4.ntotal = 1 ∧
    (VectorStore.search stW4 [0] 2).map List.length = Except.ok 2 ∧
    (VectorStore.search stW4 [0] 2).map (fun l => l.map Prod.fst) =
      Except.ok [cW4, cW4] :=
  ⟨rfl, by decide, by decide⟩

/-- C5: a store to which no vectors have ever been added
(`self.index is None`) answers every search — any query vector, any
`k` — with the empty result list and no error. -/
theorem search_unindexed_returns_empty (st : VectorStore) (q : List ℚ)
    (k : ℕ) (h : st.index = none) : VectorStore.search st q k = .ok [] := by
  simp [VectorStore.search, h]

/-- Witness for C5 at the freshly initialised store. -/
theorem search_unindexed_returns_empty_witness :
    VectorStore.init.index = none ∧
    VectorStore.search VectorStore.init [1] 3 = .ok [] :=
  ⟨rfl, search_unindexed_returns_empty VectorStore.init [1] 3 rfl⟩

/-! ## Claim theorems: pipeline -/

/-- C9: in both "no information" situations — the pipeline is still not
indexed after the lazy build attempt, or retrieval returns an empty
result list — `query` returns, without error, the well-formed result
record whose context is empty, sources empty, retrieved chunks empty,
and prompt the no-context template for the question. -/
theorem query_no_info_returns_no_context (build : RAGState → RAGState)
    (embed : String → List ℚ) (st : RAGState) (question language : String)
    (top_k : ℕ)
    (h : (if st.is_indexed then st else build st).is_indexed = false ∨
      Retriever.retrieve (if st.is_indexed then st else build st).vector_store
        embed question top_k = .ok []) :
    RAGPipeline.query build embed st question language top_k =
      .ok (if st.is_indexed then st else build st, noContextResult question) := by
  unfold RAGPipeline.query
  by_cases hidx : (if st.is_indexed then st else build st).is_indexed = false
  · simp [hidx]
  · have hid : (if st.is_indexed then st else build st).is_indexed = true := by
      revert hidx
      cases (if st.is_indexed then st else build st).is_indexed <;> simp
    rcases h with h | h
    · exact absurd h hidx
    · simp [hid, h]

/-- Witness for C9 at the unindexed initial state with a build that
does not index. -/
theorem query_no_info_returns_no_context_witness :
    ((if ragInit.is_indexed then ragInit else id ragInit).is_indexed = false ∨
      Retriever.retrieve
        (if ragInit.is_indexed then ragInit else id ragInit).vector_store
        (fun _ => []) "q" 3 = .ok []) ∧
    RAGPipeline.query id (fun _ => []) ragInit "q" "hindi" 3 =
      .ok (if ragInit.is_indexed then ragInit else id ragInit,
        noContextResult "q") :=
  ⟨Or.inl rfl,
    query_no_info_returns_no_context id (fun _ => []) ragInit "q" "hindi" 3
      (Or.inl rfl)⟩

end GraminSahayak
